import Mathlib

/-!
# Verification of the `linuxexamples` log-analytics client/server

Shallow embedding of the Python sources under `src/basic/`
(`DataStructuresPython.py`, `ClientPython.py`, `ServerPython.py`) and proofs
about the behaviours claimed in the specification.

Modelling conventions:
* Python `str` values are modelled as `List Char` (`PyStr`); on the wire
  (`send_log_entry` / `recv_log_entry`) strings are modelled by their UTF-8
  byte sequences (`List Nat`), since `str.encode('utf-8')` and
  `bytes.decode('utf-8')` are mutually inverse on all valid data.
* Python `int` is `Int`; Python machine-independent byte values are `Nat`
  with explicit bounds.
* Python `float` values held in records are modelled as exact rationals `ℚ`;
  the claims settled here never depend on rounding behaviour, and all
  concrete inputs used in witnesses are exactly representable.
* Fallible Python code (exceptions) is modelled with `Option` / `Except`.
-/

/-- Python strings as character lists. -/
abbrev PyStr := List Char

/-- The whitespace predicate of Python's `str.strip` / `str.split`
(space, tab, newline, carriage return, vertical tab, form feed). -/
def pyIsSpace (c : Char) : Bool :=
  c = ' ' || c = '\t' || c = '\n' || c = '\r' || c = '\x0b' || c = '\x0c'

/-- Python `str.strip()`: drop whitespace from both ends. -/
def pyStrip (s : PyStr) : PyStr :=
  ((s.dropWhile pyIsSpace).reverse.dropWhile pyIsSpace).reverse

/-- Python `str.split(sep)` for a one-character separator: splits on every
occurrence, keeping empty segments (so `"".split(',') == ['']`). -/
def pySplit (sep : Char) : PyStr → List PyStr
  | [] => [[]]
  | c :: rest =>
    if c = sep then [] :: pySplit sep rest
    else
      match pySplit sep rest with
      | [] => [[c]]
      | seg :: segs => (c :: seg) :: segs

/-- Numeric value of a decimal digit character. -/
def digitVal (c : Char) : Nat := c.toNat - 48

/-- Value of a string of decimal digits (most significant first),
as accumulated left to right. -/
def digitsVal (s : PyStr) : Nat := s.foldl (fun a c => a * 10 + digitVal c) 0

/-- Python `int(s)` on an already-stripped string: an optional sign followed
by a non-empty run of decimal digits; anything else raises `ValueError`
(modelled as `none`).  (Python's digit-grouping underscores and non-ASCII
digits are outside the inputs this program ever parses.) -/
def pyInt? (s : PyStr) : Option Int :=
  match s with
  | '-' :: rest =>
    if rest ≠ [] ∧ rest.all Char.isDigit then some (-(digitsVal rest : Int)) else none
  | '+' :: rest =>
    if rest ≠ [] ∧ rest.all Char.isDigit then some (digitsVal rest : Int) else none
  | _ => if s ≠ [] ∧ s.all Char.isDigit then some (digitsVal s : Int) else none

/-- Python `str.isdecimal()` (ASCII): non-empty and all decimal digits. -/
def pyIsDecimal (s : PyStr) : Bool := !s.isEmpty && s.all Char.isDigit

/-!
## `DataStructuresPython.py`

`PriorityQueue` stores `(item, priority)` pairs in a plain list.
`enqueue` walks the list while `priority <= queue[i][1]` and inserts at the
stopping index, so the list is kept sorted by *descending* priority and a new
item goes after existing items of equal priority.  `dequeue` is `pop(0)`.
-/

/-- `PriorityQueue.enqueue` (DataStructuresPython.py:5-13): insert `(item, priority)`
after every entry whose stored priority is `≥ priority`. -/
def pqEnqueue {α : Type} (q : List (α × Int)) (item : α) (priority : Int) :
    List (α × Int) :=
  match q with
  | [] => [(item, priority)]
  | (x, p) :: rest =>
    if priority ≤ p then (x, p) :: pqEnqueue rest item priority
    else (item, priority) :: (x, p) :: rest

/-- `PriorityQueue.dequeue` (DataStructuresPython.py:15-17): `self.queue.pop(0)`,
returning the `(item, priority)` pair; raises `IndexError` on an empty queue. -/
def pqDequeue? {α : Type} (q : List (α × Int)) :
    Option ((α × Int) × List (α × Int)) :=
  match q with
  | [] => none
  | x :: rest => some (x, rest)

/-- Drain the queue by repeated `dequeue` until it is empty
(`pqDrain_dequeue` below checks this agrees with `pqDequeue?` step by step). -/
def pqDrain {α : Type} : List (α × Int) → List (α × Int)
  | [] => []
  | x :: rest => x :: pqDrain rest

/-- Enqueue a whole sequence of `(item, priority)` pairs, in order, into an
initially empty `PriorityQueue`. -/
def pqBuild {α : Type} (items : List (α × Int)) : List (α × Int) :=
  items.foldl (fun q xi => pqEnqueue q xi.1 xi.2) []

/-- `Stack.push` (DataStructuresPython.py:29-31): append at the end. -/
def stackPush {α : Type} (s : List α) (x : α) : List α := s ++ [x]

/-- `Stack.pop` (DataStructuresPython.py:33-35): remove and return the last
element; raises `IndexError` on an empty stack. -/
def stackPop? {α : Type} (s : List α) : Option (α × List α) :=
  match s.getLast? with
  | none => none
  | some x => some (x, s.dropLast)

section PriorityQueueLemmas

variable {α : Type}

theorem pqDrain_dequeue (q : List (α × Int)) :
    pqDrain q = (match pqDequeue? q with
      | none => []
      | some (y, q') => y :: pqDrain q') := by
  cases q <;> rfl

theorem pqDrain_eq (q : List (α × Int)) : pqDrain q = q := by
  induction q with
  | nil => rfl
  | cons x rest ih => simp [pqDrain, ih]

theorem mem_pqEnqueue {q : List (α × Int)} {x : α} {pr : Int} {z : α × Int}
    (hz : z ∈ pqEnqueue q x pr) : z ∈ q ∨ z = (x, pr) := by
  induction q with
  | nil =>
    simp only [pqEnqueue, List.mem_singleton] at hz
    exact Or.inr hz
  | cons y rest ih =>
    obtain ⟨y1, y2⟩ := y
    by_cases h : pr ≤ y2
    · simp only [pqEnqueue, if_pos h, List.mem_cons] at hz
      rcases hz with h1 | h2
      · exact Or.inl (by simp [h1])
      · rcases ih h2 with h3 | h4
        · exact Or.inl (List.mem_cons_of_mem _ h3)
        · exact Or.inr h4
    · simp only [pqEnqueue, if_neg h, List.mem_cons] at hz
      rcases hz with h1 | h2 | h3
      · exact Or.inr h1
      · exact Or.inl (by simp [h2])
      · exact Or.inl (List.mem_cons_of_mem _ h3)

/-- Descending order on stored priorities. -/
def pqDesc : α × Int → α × Int → Prop := fun a b => b.2 ≤ a.2

theorem pqEnqueue_sorted {q : List (α × Int)} (hs : q.Pairwise (pqDesc (α := α)))
    (x : α) (pr : Int) : (pqEnqueue q x pr).Pairwise (pqDesc (α := α)) := by
  induction q with
  | nil => simp [pqEnqueue, pqDesc]
  | cons y rest ih =>
    obtain ⟨y1, y2⟩ := y
    rw [List.pairwise_cons] at hs
    obtain ⟨hy, hrest⟩ := hs
    by_cases h : pr ≤ y2
    · simp only [pqEnqueue, if_pos h]
      rw [List.pairwise_cons]
      refine ⟨?_, ih hrest⟩
      intro z hz
      rcases mem_pqEnqueue hz with h1 | h2
      · exact hy z h1
      · simp only [pqDesc, h2]
        exact h
    · simp only [pqEnqueue, if_neg h]
      rw [List.pairwise_cons]
      push_neg at h
      refine ⟨?_, List.pairwise_cons.mpr ⟨hy, hrest⟩⟩
      intro z hz
      rcases List.mem_cons.mp hz with h1 | h2
      · simp only [pqDesc, h1]
        exact le_of_lt h
      · have := hy z h2
        simp only [pqDesc] at this ⊢
        exact le_trans this (le_of_lt h)

theorem pqEnqueue_filter {q : List (α × Int)} (hs : q.Pairwise (pqDesc (α := α)))
    (x : α) (pr p : Int) :
    (pqEnqueue q x pr).filter (fun z => z.2 == p)
      = if pr == p then q.filter (fun z => z.2 == p) ++ [(x, pr)]
        else q.filter (fun z => z.2 == p) := by
  induction q with
  | nil =>
    by_cases h : pr = p
    · subst h; simp [pqEnqueue, List.filter_cons]
    · simp [pqEnqueue, List.filter_cons, h]
  | cons y rest ih =>
    obtain ⟨y1, y2⟩ := y
    rw [List.pairwise_cons] at hs
    obtain ⟨hy, hrest⟩ := hs
    by_cases h : pr ≤ y2
    · simp only [pqEnqueue, if_pos h]
      by_cases hp : pr = p
      · subst hp
        by_cases hyp : y2 = pr <;>
          simp [List.filter_cons, hyp, ih hrest]
      · have hpb : (pr == p) = false := by simp [hp]
        by_cases hyp : y2 = p <;>
          simp [List.filter_cons, hyp, ih hrest, hpb, hp]
    · simp only [pqEnqueue, if_neg h]
      push_neg at h
      by_cases hp : pr = p
      · -- everything in `(y1, y2) :: rest` has priority ≤ y2 < pr,
        -- so the old filter is empty
        have hnil : ((y1, y2) :: rest).filter (fun z => z.2 == p) = [] := by
          rw [List.filter_eq_nil_iff]
          intro z hz
          rcases List.mem_cons.mp hz with h1 | h2
          · subst h1; simp; omega
          · have := hy z h2
            simp only [pqDesc] at this
            simp; omega
        have hc : (pr == p) = true := by simp [hp]
        rw [if_pos hc, List.filter_cons, hnil]
        simp [hc]
      · have hpb : (pr == p) = false := by simp [hp]
        simp [List.filter_cons, hpb, hp]

theorem pqBuild_sorted_filter (items : List (α × Int)) :
    (pqBuild items).Pairwise (pqDesc (α := α)) ∧
      ∀ p : Int, (pqBuild items).filter (fun z => z.2 == p)
        = items.filter (fun z => z.2 == p) := by
  suffices h : ∀ (items : List (α × Int)) (q0 : List (α × Int)),
      q0.Pairwise (pqDesc (α := α)) →
      (items.foldl (fun q xi => pqEnqueue q xi.1 xi.2) q0).Pairwise (pqDesc (α := α)) ∧
      ∀ p : Int, (items.foldl (fun q xi => pqEnqueue q xi.1 xi.2) q0).filter
            (fun z => z.2 == p)
          = q0.filter (fun z => z.2 == p) ++ items.filter (fun z => z.2 == p) by
    obtain ⟨hs, hf⟩ := h items [] (by simp)
    refine ⟨hs, fun p => ?_⟩
    simpa [pqBuild] using hf p
  intro items
  induction items with
  | nil =>
    intro q0 h0
    exact ⟨by simpa using h0, fun p => by simp⟩
  | cons xi rest ih =>
    intro q0 h0
    obtain ⟨x, pr⟩ := xi
    have h1 : (pqEnqueue q0 x pr).Pairwise (pqDesc (α := α)) :=
      pqEnqueue_sorted h0 x pr
    obtain ⟨ihs, ihf⟩ := ih (pqEnqueue q0 x pr) h1
    refine ⟨by simpa using ihs, ?_⟩
    intro p
    have hstep := pqEnqueue_filter h0 x pr p
    by_cases hp : pr = p
    · have hc : (pr == p) = true := by simp [hp]
      simp only [List.foldl_cons]
      rw [ihf p, hstep, if_pos hc]
      simp [List.filter_cons, hc, List.append_assoc]
    · have hpb : (pr == p) = false := by simp [hp]
      simp only [List.foldl_cons]
      rw [ihf p, hstep, if_neg (by simp [hp])]
      simp [List.filter_cons, hpb, hp]

end PriorityQueueLemmas

/-!
## Claim C1 — upload queue ordering

`load_file_data` enqueues each parsed record with `priority = accessTime`
(ClientPython.py:52), and `upload_logs` drains by repeated `dequeue`
(ClientPython.py:175-176).  `enqueue` keeps the backing list sorted by
*descending* priority (new items go after all entries with priority
`≥ priority`), and `dequeue` takes `pop(0)`, so records come out in
descending `accessTime` order — not ascending as claimed — with insertion
order preserved among equal access times.
-/

/-- C1 (counterexample): enqueue a record with `accessTime = 1` and then one
with `accessTime = 2`; draining yields the `accessTime = 2` record *first*,
so the drain order is descending, refuting the claimed ascending order. -/
theorem pq_ascending_drain_counterexample :
    pqDrain (pqEnqueue (pqEnqueue ([] : List (String × Int)) "early" 1) "late" 2)
        = [("late", 2), ("early", 1)]
      ∧ ¬ ((2 : Int) ≤ 1) := by
  exact ⟨by decide, by decide⟩

/-- C1 (amended): for every sequence of records enqueued into the client's
pending upload queue keyed by `accessTime`, draining via repeated dequeue
yields the records in *descending* key order (`pqDesc`), and records with
equal key come out in their insertion (FIFO) order: for each priority `p`,
the drained sub-sequence with key `p` equals the enqueued sub-sequence with
key `p`. -/
theorem pq_drain_descending_fifo {α : Type} (items : List (α × Int)) :
    (pqDrain (pqBuild items)).Pairwise (pqDesc (α := α))
      ∧ ∀ p : Int,
          (pqDrain (pqBuild items)).filter (fun z => z.2 == p)
            = items.filter (fun z => z.2 == p) := by
  rw [pqDrain_eq]
  exact pqBuild_sorted_filter items

/-!
## Filter engine (`apply_filter`, ClientPython.py:181-218)

A parsed filter query is the list of `(field, operator, value)` triples
produced by `FILTER_PATTERN.findall`.  Python values stored in a record
dictionary are strings, ints or floats (`PyVal`); a record is the dictionary
itself, modelled as an association list.
-/

/-- A Python value held in a log-entry dictionary. -/
inductive PyVal : Type where
  | str (s : PyStr)
  | intV (i : Int)
  | floatV (q : ℚ)
deriving DecidableEq

/-- A log-entry dictionary: field name to value. -/
abbrev PyRec := List (PyStr × PyVal)

/-- Dictionary lookup (`item[field]` / `field in item`). -/
def recLookup (r : PyRec) (f : PyStr) : Option PyVal :=
  match r with
  | [] => none
  | (k, v) :: rest => if k = f then some v else recLookup rest f

/-- One `(field, operator, value)` triple captured by `FILTER_PATTERN`. -/
abbrev Clause := PyStr × PyStr × PyStr

/-- Magnitude part of Python `float(s)`: decimal digits with an optional
fractional part (`"1"`, `"1.5"`, `"1."`, `".5"`).  Exponent, `inf` and `nan`
forms never occur in this program's queries and are not modelled; every
theorem below uses this conversion on both of its sides. -/
def pyFloatMag? (s : PyStr) : Option ℚ :=
  match pySplit '.' s with
  | [ip] =>
    if ip ≠ [] ∧ ip.all Char.isDigit then some ((digitsVal ip : ℚ)) else none
  | [ip, fp] =>
    if (ip ++ fp) ≠ [] ∧ (ip ++ fp).all Char.isDigit then
      some ((digitsVal ip : ℚ) + (digitsVal fp : ℚ) / 10 ^ fp.length)
    else none
  | _ => none

/-- Python `float(s)` on an already-stripped string (as a `ValueError`-able
conversion): optional sign then a decimal magnitude. -/
def pyFloat? (s : PyStr) : Option ℚ :=
  match s with
  | '-' :: rest => (pyFloatMag? rest).map (fun q => -q)
  | '+' :: rest => pyFloatMag? rest
  | _ => pyFloatMag? s


/-- Propagate a conversion error, otherwise test the converted number. -/
def convTest (conv : Except PyStr ℚ) (f : ℚ → Bool) : Except PyStr Bool :=
  match conv with
  | .error e => .error e
  | .ok q => .ok (f q)

/-- Numeric branch of the clause test (ClientPython.py:199-211): the
entry's numeric value is compared against `float(value)`.  Python evaluates
`float(value)` lazily inside each condition, so a conversion failure raises
`ValueError` only when the operator is one of the six known ones; an unknown
operator matches no branch and the clause silently passes.  The `break`
conditions of the source are negated here: the returned Bool is `true` iff
the clause does *not* break. -/
def numClausePasses (ev : ℚ) (op : PyStr) (value : PyStr) :
    Except PyStr Bool :=
  let conv : Except PyStr ℚ :=
    match pyFloat? value with
    | some q => .ok q
    | none => .error ("could not convert string to float: ".data ++ value)
  if op = "=".data then convTest conv (fun q => decide (ev = q))
  else if op = "!=".data then convTest conv (fun q => decide (ev ≠ q))
  else if op = "<".data then convTest conv (fun q => decide (ev < q))
  else if op = ">".data then convTest conv (fun q => decide (ev > q))
  else if op = "<=".data then convTest conv (fun q => decide (ev ≤ q))
  else if op = ">=".data then convTest conv (fun q => decide (ev ≥ q))
  else .ok true

/-- Evaluation of one clause against one record (the body of the inner loop
of `apply_filter`, ClientPython.py:186-213): strip field and value, look the
field up (`ValueError` if absent), then dispatch on the stored value's type.
For a string-valued field only `=` and `!=` can reject; a relational operator
falls through every branch and the clause is treated as satisfied.  (Records
only ever hold `str`/`int`/`float` values, so the source's final
`Invalid value type` branch is unreachable and has no counterpart here.)
`true` means the clause did not break. -/
def clausePasses (item : PyRec) (c : Clause) : Except PyStr Bool :=
  let field := pyStrip c.1
  let value := pyStrip c.2.2
  match recLookup item field with
  | none => .error ("Field not found: ".data ++ field)
  | some (.str s) =>
    if c.2.1 = "=".data then .ok (decide (s = value))
    else if c.2.1 = "!=".data then .ok (decide (s ≠ value))
    else .ok true
  | some (.intV i) => numClausePasses (i : ℚ) c.2.1 value
  | some (.floatV q) => numClausePasses q c.2.1 value

/-- Per-record scan of the clause list (ClientPython.py:185-216) carrying
the `matchCount` countdown: the record is appended exactly when the final
clause passes with `matchCount == 0`.  `apply_filter` always starts the scan
with `mc = matches.length`, so `mc - 1 = 0` exactly at the last clause;
returns `true` iff the record was appended. -/
def itemScan (item : PyRec) : List Clause → Nat → Except PyStr Bool
  | [], _ => .ok false
  | c :: rest, mc =>
    match clausePasses item c with
    | .error e => .error e
    | .ok ok =>
      if !ok then .ok false
      else if mc - 1 = 0 then .ok true
      else itemScan item rest (mc - 1)

/-- `apply_filter(results, filter_query)` (ClientPython.py:181-218) over the
already-captured clause list: scan each record in order; an exception raised
while scanning any record aborts the whole call. -/
def applyFilter : List PyRec → List Clause → Except PyStr (List PyRec)
  | [], _ => .ok []
  | item :: rest, cls =>
    match itemScan item cls cls.length with
    | .error e => .error e
    | .ok b =>
      match applyFilter rest cls with
      | .error e => .error e
      | .ok tail => .ok (if b then item :: tail else tail)

/-- Pure view of one clause: did it pass without error? -/
def clausePassesB (item : PyRec) (c : Clause) : Bool :=
  match clausePasses item c with
  | .ok b => b
  | .error _ => false

instance {ε α : Type} [DecidableEq ε] [DecidableEq α] :
    DecidableEq (Except ε α) := fun a b =>
  match a, b with
  | .error e1, .error e2 =>
    if h : e1 = e2 then isTrue (by rw [h])
    else isFalse (fun hc => h (Except.error.inj hc))
  | .error _, .ok _ => isFalse (fun hc => Except.noConfusion hc)
  | .ok _, .error _ => isFalse (fun hc => Except.noConfusion hc)
  | .ok a1, .ok a2 =>
    if h : a1 = a2 then isTrue (by rw [h])
    else isFalse (fun hc => h (Except.ok.inj hc))

theorem itemScan_ok {item : PyRec} :
    ∀ {cs : List Clause} {b : Bool}, cs ≠ [] →
      itemScan item cs cs.length = .ok b → b = cs.all (clausePassesB item) := by
  intro cs
  induction cs with
  | nil => intro b h; exact absurd rfl h
  | cons c rest ih =>
    intro b _ hscan
    simp only [itemScan, List.length_cons, Nat.add_sub_cancel] at hscan
    cases hcp : clausePasses item c with
    | error e =>
      rw [hcp] at hscan
      exact Except.noConfusion hscan
    | ok o =>
      rw [hcp] at hscan
      cases o with
      | false =>
        simp only [Bool.not_false, if_true, Except.ok.injEq] at hscan
        simp [List.all_cons, clausePassesB, hcp, ← hscan]
      | true =>
        by_cases hlen : rest.length = 0
        · have hrest : rest = [] := List.length_eq_zero.mp hlen
          subst hrest
          simp at hscan
          simp [List.all_cons, clausePassesB, hcp, hscan]
        · have hrest : rest ≠ [] := by
            intro hx; exact hlen (by simp [hx])
          simp only [Bool.not_true, if_false, hlen, ite_false] at hscan
          have := ih hrest hscan
          simp [List.all_cons, clausePassesB, hcp, this]

theorem applyFilter_ok {cs : List Clause} (hcs : cs ≠ []) :
    ∀ {results out : List PyRec}, applyFilter results cs = .ok out →
      out = results.filter (fun r => cs.all (clausePassesB r)) := by
  intro results
  induction results with
  | nil =>
    intro out h
    simp only [applyFilter, Except.ok.injEq] at h
    simp [← h]
  | cons item rest ih =>
    intro out h
    simp only [applyFilter] at h
    cases hscan : itemScan item cs cs.length with
    | error e => rw [hscan] at h; exact Except.noConfusion h
    | ok b =>
      rw [hscan] at h
      cases htail : applyFilter rest cs with
      | error e => rw [htail] at h; exact Except.noConfusion h
      | ok tail =>
        rw [htail] at h
        simp only [Except.ok.injEq] at h
        have hb := itemScan_ok hcs hscan
        have ht := ih htail
        rw [List.filter_cons, ← hb, ← ht, ← h]

/-!
## Claims C3, C4, C10 — `apply_filter` behaviour

The inner loop appends a record only when its clause countdown reaches zero,
which never happens for an empty clause list, so the empty query keeps *no*
records (the spec claims it keeps all of them).
-/

/-- A concrete well-formed record (the `Bob` record of the spec's §8
scenario) used for concrete evaluations. -/
def recBob : PyRec :=
  [("username".data, .str "Bob".data),
   ("IP".data, .str "10.0.0.4".data),
   ("port".data, .intV 24153),
   ("accessTime".data, .intV 50),
   ("dataSent".data, .intV 100),
   ("dataReceived".data, .intV 0),
   ("score".data, .floatV 1),
   ("server".data, .str "srvA".data)]

/-- C3 (counterexample): on the empty query (no clauses), `apply_filter`
returns the *empty* list even though the input holds a record, refuting the
claim that every record passes the empty query. -/
theorem apply_filter_empty_query_counterexample :
    applyFilter [recBob] [] = Except.ok [] ∧ ([recBob] : List PyRec) ≠ [] :=
  ⟨rfl, List.cons_ne_nil _ _⟩

/-- C3 (amended): for the empty query `apply_filter` returns the empty list
(no record passes); for every non-empty query that completes without an
evaluation error, a record is in the output iff every clause of the query
individually holds on it, and the output preserves the input order (it is a
`List.filter` of the input). -/
theorem apply_filter_conjunction_characterization (results : List PyRec) :
    applyFilter results ([] : List Clause) = Except.ok []
    ∧ ∀ (cs : List Clause) (out : List PyRec), cs ≠ [] →
        applyFilter results cs = .ok out →
        out = results.filter (fun r => cs.all (clausePassesB r)) := by
  constructor
  · induction results with
    | nil => rfl
    | cons item rest ih =>
      simp [applyFilter, itemScan, List.length_nil, ih]
  · intro cs out hcs h
    exact applyFilter_ok hcs h

/-- Witness for C3 (amended) at the spec's §8 scenario query
`accessTime<75` on the Bob record: the record passes the clause and the
output equals the filtered input. -/
theorem apply_filter_conjunction_characterization_witness :
    ([recBob] : List PyRec)
      = List.filter
          (fun r => [(("accessTime".data, "<".data, "75".data) : Clause)].all
            (clausePassesB r)) [recBob] :=
  (apply_filter_conjunction_characterization [recBob]).2
    [("accessTime".data, "<".data, "75".data)] [recBob]
    (List.cons_ne_nil _ _) (by decide)

/-- C4 (counterexample): the query `username<Zed` applies a relational
operator to the string field `username`; the code raises no error at all —
the clause silently passes and the record is kept — refuting the claim that
an `EvaluationError` is raised. -/
theorem relational_on_string_counterexample :
    applyFilter [recBob] [("username".data, "<".data, "Zed".data)]
      = Except.ok [recBob] := by decide

/-- C4 (amended): a clause that applies a relational operator (`<`, `>`,
`<=`, `>=`) to a string-valued field raises no error and is silently treated
as satisfied: neither string branch (`=`, `!=`) matches, so the loop falls
through without breaking. -/
theorem relational_on_string_silently_passes (item : PyRec)
    (f op v s : PyStr) (hf : recLookup item (pyStrip f) = some (.str s))
    (hop : op = "<".data ∨ op = ">".data ∨ op = "<=".data ∨ op = ">=".data) :
    clausePasses item (f, op, v) = .ok true := by
  rcases hop with h | h | h | h <;> subst h <;>
    simp only [clausePasses, hf] <;>
    rw [if_neg (by decide), if_neg (by decide)]

/-- Witness for C4 (amended): `username<Zed` on the Bob record. -/
theorem relational_on_string_silently_passes_witness :
    clausePasses recBob ("username".data, "<".data, "Zed".data) = .ok true :=
  relational_on_string_silently_passes recBob "username".data "<".data
    "Zed".data "Bob".data (by decide) (Or.inl rfl)

/-- C10 (amended): `apply_filter` applied to an empty record list returns
the empty list without any error, whatever the query; consequently an
evaluation error (unknown field included) can only be raised when the input
holds at least one record.  (The converse direction of the claim's "if and
only if" fails: see the counterexample.) -/
theorem unknown_field_error_only_when_scanning :
    (∀ cs : List Clause, applyFilter [] cs = Except.ok [])
    ∧ ∀ (results : List PyRec) (cs : List Clause) (e : PyStr),
        applyFilter results cs = .error e → results ≠ [] := by
  refine ⟨fun cs => rfl, ?_⟩
  intro results cs e h hnil
  subst hnil
  simp only [applyFilter] at h
  exact Except.noConfusion h

/-- Witness for C10 (amended): the query `zzz=1` names a field absent from
the Bob record; on the one-record list the unknown-field error fires, and
the theorem concludes that the record list is non-empty. -/
theorem unknown_field_error_only_when_scanning_witness :
    ([recBob] : List PyRec) ≠ [] :=
  unknown_field_error_only_when_scanning.2 [recBob]
    [("zzz".data, "=".data, "1".data)] ("Field not found: zzz".data)
    (by decide)

/-- C10 (counterexample to the "if and only if"): the query
`accessTime<0, zzz=1` names the absent field `zzz`, and a record *is*
evaluated (the list is non-empty), yet no error is raised: the first clause
fails on the record and the scan breaks before reaching the unknown field. -/
theorem unknown_field_iff_counterexample :
    applyFilter [recBob]
        [("accessTime".data, "<".data, "0".data), ("zzz".data, "=".data, "1".data)]
      = Except.ok []
    ∧ recLookup recBob "zzz".data = none
    ∧ ([recBob] : List PyRec) ≠ [] :=
  ⟨by decide, by decide, List.cons_ne_nil _ _⟩

/-!
## Claim C5 — `load_file_data` / `is_valid_ip` (ClientPython.py:14-56)

A source line is split on commas; the only checks performed are the
field-count (exactly 8), the `int()`/`float()` conversions of the four
integer fields and the score, and `is_valid_ip` on the IP field.  Nothing
checks that `username`/`server` are non-empty, that `port` lies in
0–65535, or that the numeric fields are non-negative.
-/

/-- `is_valid_ip` (ClientPython.py:14-28).  The IPv6 arm calls the external
`socket.inet_pton`, which is not part of this repository; it is passed in as
the parameter `ipv6Valid`.  With exactly four dot-separated parts the
function decides IPv4-validity directly and never falls through to IPv6. -/
def isValidIp (ipv6Valid : PyStr → Bool) (ip : PyStr) : Bool :=
  let parts := pySplit '.' ip
  if parts.length = 4 then
    parts.all (fun part =>
      pyIsDecimal part &&
        (decide ((0 : Int) ≤ (digitsVal part : Int)) &&
          decide ((digitsVal part : Int) ≤ 255)))
  else ipv6Valid ip

/-- Body of the per-line `try` block of `load_file_data`
(ClientPython.py:34-52) once the line has split into exactly 8 fields:
strip each field, convert the numeric ones (`ValueError` → `none`), build
the record dictionary, and reject it if `is_valid_ip` fails. -/
def parseFields (ipv6Valid : PyStr → Bool)
    (f0 f1 f2 f3 f4 f5 f6 f7 : PyStr) : Option PyRec :=
  match pyInt? (pyStrip f2), pyInt? (pyStrip f3), pyInt? (pyStrip f4),
      pyInt? (pyStrip f5), pyFloat? (pyStrip f6) with
  | some port, some atime, some ds, some dr, some sc =>
    if isValidIp ipv6Valid (pyStrip f1) then
      some [("username".data, .str (pyStrip f0)),
            ("IP".data, .str (pyStrip f1)),
            ("port".data, .intV port),
            ("accessTime".data, .intV atime),
            ("dataSent".data, .intV ds),
            ("dataReceived".data, .intV dr),
            ("score".data, .floatV sc),
            ("server".data, .str (pyStrip f7))]
    else none
  | _, _, _, _, _ => none

/-- Parsing of one source log line by `load_file_data`
(ClientPython.py:33-55): any raised exception — wrong element count, failed
conversion, invalid IP — is caught and the line is skipped (`none`). -/
def parseLogLine (ipv6Valid : PyStr → Bool) (line : PyStr) : Option PyRec :=
  match pySplit ',' line with
  | [f0, f1, f2, f3, f4, f5, f6, f7] =>
    parseFields ipv6Valid f0 f1 f2 f3 f4 f5 f6 f7
  | _ => none

/-- `logEntry['accessTime']` as used for the enqueue priority
(ClientPython.py:52); every record built by `parseFields` stores an `intV`
there, so the fallback is never reached on parsed records. -/
def accessTimeOf (r : PyRec) : Int :=
  match recLookup r "accessTime".data with
  | some (.intV t) => t
  | _ => 0

/-- `load_file_data` (ClientPython.py:30-56): fold over the file's lines,
enqueueing each successfully parsed record with its access time as
priority, skipping rejected lines. -/
def loadFileData (ipv6Valid : PyStr → Bool) (lines : List PyStr) :
    List (PyRec × Int) :=
  lines.foldl (fun logs line =>
    match parseLogLine ipv6Valid line with
    | some e => pqEnqueue logs e (accessTimeOf e)
    | none => logs) []

theorem parseFields_isSome_iff (ipv6Valid : PyStr → Bool)
    (f0 f1 f2 f3 f4 f5 f6 f7 : PyStr) :
    (parseFields ipv6Valid f0 f1 f2 f3 f4 f5 f6 f7).isSome ↔
      ((pyInt? (pyStrip f2)).isSome ∧ (pyInt? (pyStrip f3)).isSome ∧
        (pyInt? (pyStrip f4)).isSome ∧ (pyInt? (pyStrip f5)).isSome ∧
        (pyFloat? (pyStrip f6)).isSome ∧
        isValidIp ipv6Valid (pyStrip f1) = true) := by
  rcases h2 : pyInt? (pyStrip f2) with _ | port <;>
    rcases h3 : pyInt? (pyStrip f3) with _ | atime <;>
      rcases h4 : pyInt? (pyStrip f4) with _ | ds <;>
        rcases h5 : pyInt? (pyStrip f5) with _ | dr <;>
          rcases h6 : pyFloat? (pyStrip f6) with _ | sc <;>
            simp only [parseFields, h2, h3, h4, h5, h6, Option.isSome_none,
              Option.isSome_some, Bool.false_eq_true, Bool.true_eq_false,
              false_iff, true_iff, false_and, and_false, true_and, and_true,
              not_and, not_false_iff] <;>
    try simp

theorem loadFileData_eq_build (ipv6Valid : PyStr → Bool)
    (lines : List PyStr) :
    loadFileData ipv6Valid lines
      = pqBuild ((lines.filterMap (parseLogLine ipv6Valid)).map
          (fun e => (e, accessTimeOf e))) := by
  suffices h : ∀ (lines : List PyStr) (q0 : List (PyRec × Int)),
      lines.foldl (fun logs line =>
        match parseLogLine ipv6Valid line with
        | some e => pqEnqueue logs e (accessTimeOf e)
        | none => logs) q0
      = ((lines.filterMap (parseLogLine ipv6Valid)).map
          (fun e => (e, accessTimeOf e))).foldl
            (fun q xi => pqEnqueue q xi.1 xi.2) q0 by
    exact h lines []
  intro ls
  induction ls with
  | nil => intro q0; rfl
  | cons line rest ih =>
    intro q0
    cases hp : parseLogLine ipv6Valid line with
    | none => simp [List.foldl_cons, List.filterMap_cons, hp, ih]
    | some e => simp [List.foldl_cons, List.filterMap_cons, hp, ih]

/-- C5 (amended): a source log line is accepted by `load_file_data` iff it
splits on commas into exactly 8 fields, the four integer fields and the
score convert (`int()` / `float()` do not raise), and the IP field passes
`is_valid_ip`; and the resulting Log Store is exactly the priority queue
built from the accepted records in line order, keyed by their access time.
No other field constraint is enforced: emptiness of `username`/`server`,
the 0–65535 port range, and non-negativity of the numeric fields are never
checked (see the counterexample). -/
theorem load_acceptance_characterization (ipv6Valid : PyStr → Bool)
    (line : PyStr) :
    ((parseLogLine ipv6Valid line).isSome ↔
      (match pySplit ',' line with
        | [_, f1, f2, f3, f4, f5, f6, _] =>
          (pyInt? (pyStrip f2)).isSome ∧ (pyInt? (pyStrip f3)).isSome ∧
          (pyInt? (pyStrip f4)).isSome ∧ (pyInt? (pyStrip f5)).isSome ∧
          (pyFloat? (pyStrip f6)).isSome ∧
          isValidIp ipv6Valid (pyStrip f1) = true
        | _ => False))
    ∧ ∀ lines : List PyStr,
        loadFileData ipv6Valid lines
          = pqBuild ((lines.filterMap (parseLogLine ipv6Valid)).map
              (fun e => (e, accessTimeOf e))) := by
  refine ⟨?_, loadFileData_eq_build ipv6Valid⟩
  rcases hsplit : pySplit ',' line with _ | ⟨f0, _ | ⟨f1, _ | ⟨f2, _ | ⟨f3,
    _ | ⟨f4, _ | ⟨f5, _ | ⟨f6, _ | ⟨f7, _ | ⟨f8, rest⟩⟩⟩⟩⟩⟩⟩⟩⟩ <;>
    simp only [parseLogLine, hsplit] <;>
    try simp
  exact parseFields_isSome_iff ipv6Valid f0 f1 f2 f3 f4 f5 f6 f7

/-- Line with out-of-range port 70000 (otherwise valid). -/
def line70000 : PyStr := "alice,1.2.3.4,70000,5,6,7,1,srv".data

/-- The record `load_file_data` builds from `line70000`. -/
def entry70000 : PyRec :=
  [("username".data, .str "alice".data),
   ("IP".data, .str "1.2.3.4".data),
   ("port".data, .intV 70000),
   ("accessTime".data, .intV 5),
   ("dataSent".data, .intV 6),
   ("dataReceived".data, .intV 7),
   ("score".data, .floatV 1),
   ("server".data, .str "srv".data)]

/-- Line with empty username and negative accessTime (otherwise valid). -/
def lineNeg : PyStr := ",1.2.3.4,80,-5,6,7,1,srv".data

/-- C5 (counterexample): a line whose port (70000) is outside 0–65535 is
parsed and enqueued into the Log Store, and a line with an *empty* username
and a *negative* accessTime is accepted as well — refuting the claim that
records violating those field constraints are rejected at parse time. -/
theorem load_rejects_constraints_counterexample :
    parseLogLine (fun _ => false) line70000 = some entry70000
    ∧ loadFileData (fun _ => false) [line70000] = [(entry70000, 5)]
    ∧ recLookup entry70000 "port".data = some (.intV 70000)
    ∧ ¬ ((70000 : Int) ≤ 65535)
    ∧ (parseLogLine (fun _ => false) lineNeg).isSome = true := by
  refine ⟨by decide, by decide, by decide, by decide, by decide⟩

/-!
## Claim C2 — wire codec round trip
(`send_log_entry` ClientPython.py:105-125, `recv_log_entry` 136-167)

Byte sequences are `List Nat` with each byte `< 256`.  The three text
fields are represented by their UTF-8 byte strings (the `.encode('utf-8')`
of the source; `bytes.decode('utf-8')` is its exact inverse, so it is the
identity in this representation).  `score` is represented by its IEEE-754
binary32 bit pattern: `struct.pack('!f', x)` writes exactly those four bytes
big-endian and `struct.unpack` restores the same single-precision value. -/

/-- Big-endian 2-byte encoding of `struct.pack('!H', n)`. -/
def be2 (n : Nat) : List Nat := [n / 256 % 256, n % 256]

/-- Big-endian 4-byte encoding of `struct.pack('!I', n)` (and of the four
bytes of a packed binary32 `score`). -/
def be4 (n : Nat) : List Nat :=
  [n / 16777216 % 256, n / 65536 % 256, n / 256 % 256, n % 256]

/-- One log record as it crosses the wire. -/
structure WireLogEntry : Type where
  username : List Nat
  ip : List Nat
  server : List Nat
  port : Nat
  accessTime : Nat
  dataSent : Nat
  dataReceived : Nat
  score : Nat
deriving DecidableEq

/-- The packed byte image of `struct.pack('!HHH{u}s{i}s{s}sHIIIf', ...)`:
three 2-byte length prefixes, the three byte strings, then port,
accessTime, dataSent, dataReceived and the score bits. -/
def wireBytes (e : WireLogEntry) : List Nat :=
  be2 e.username.length ++ be2 e.ip.length ++ be2 e.server.length
    ++ e.username ++ e.ip ++ e.server
    ++ be2 e.port ++ be4 e.accessTime ++ be4 e.dataSent
    ++ be4 e.dataReceived ++ be4 e.score

/-- `send_log_entry` (ClientPython.py:105-125): `struct.pack` raises
`struct.error` when an `H`-field exceeds 16 bits or an `I`-field exceeds
32 bits, so packing succeeds only inside those ranges. -/
def sendLogEntry (e : WireLogEntry) : Option (List Nat) :=
  if e.username.length < 65536 ∧ e.ip.length < 65536 ∧ e.server.length < 65536
      ∧ e.port < 65536 ∧ e.accessTime < 4294967296
      ∧ e.dataSent < 4294967296 ∧ e.dataReceived < 4294967296 then
    some (wireBytes e)
  else none

/-- `recv_all(sock, n)` (ClientPython.py:127-134) over a byte stream:
return exactly `n` bytes and the unread remainder, or raise `EOFError` if
the stream ends first. -/
def recvAll (stream : List Nat) (n : Nat) :
    Except (List Char) (List Nat × List Nat) :=
  if n ≤ stream.length then .ok (stream.take n, stream.drop n)
  else .error "Socket connection broken".data

/-- Read a `struct`-format `!H` field from the front of a byte string. -/
def readU16 : List Nat → Option (Nat × List Nat)
  | b0 :: b1 :: rest => some (b0 * 256 + b1, rest)
  | _ => none

/-- Read a `struct`-format `!I` field (or the four raw bytes of an `!f`
field, kept as bits) from the front of a byte string. -/
def readU32 : List Nat → Option (Nat × List Nat)
  | b0 :: b1 :: b2 :: b3 :: rest =>
    some (((b0 * 256 + b1) * 256 + b2) * 256 + b3, rest)
  | _ => none

/-- Unpack of `!{u}s{i}s{s}sHIIIf` from the second `recv_all` buffer
(ClientPython.py:144-148).  The buffer always has exactly
`u + i + s + 18` bytes, so the fallbacks are unreachable. -/
def unpackBody (ulen ilen slen : Nat) (body : List Nat) :
    Option WireLogEntry :=
  let username := body.take ulen
  let r1 := body.drop ulen
  let ip := r1.take ilen
  let r2 := r1.drop ilen
  let server := r2.take slen
  let r3 := r2.drop slen
  match readU16 r3 with
  | none => none
  | some (port, r4) =>
    match readU32 r4 with
    | none => none
    | some (atime, r5) =>
      match readU32 r5 with
      | none => none
      | some (ds, r6) =>
        match readU32 r6 with
        | none => none
        | some (dr, r7) =>
          match readU32 r7 with
          | none => none
          | some (score, _) =>
            some ⟨username, ip, server, port, atime, ds, dr, score⟩

/-- `recv_log_entry` (ClientPython.py:136-167): read 6 header bytes, unpack
the three `!H` length prefixes, read the `calcsize`-determined body
(`u + i + s + 18` bytes) and unpack it.  Returns the decoded record and the
unread remainder of the stream. -/
def recvLogEntry (stream : List Nat) :
    Except (List Char) (WireLogEntry × List Nat) :=
  match recvAll stream 6 with
  | .error e => .error e
  | .ok (hdr, rest) =>
    match readU16 hdr with
    | none => .error "struct.error".data
    | some (ulen, h1) =>
      match readU16 h1 with
      | none => .error "struct.error".data
      | some (ilen, h2) =>
        match readU16 h2 with
        | none => .error "struct.error".data
        | some (slen, _) =>
          match recvAll rest (ulen + ilen + slen + 18) with
          | .error e => .error e
          | .ok (body, rest2) =>
            match unpackBody ulen ilen slen body with
            | none => .error "struct.error".data
            | some e => .ok (e, rest2)

theorem be2_length (n : Nat) : (be2 n).length = 2 := rfl

theorem be4_length (n : Nat) : (be4 n).length = 4 := rfl

theorem readU16_be2 (n : Nat) (h : n < 65536) (rest : List Nat) :
    readU16 (be2 n ++ rest) = some (n, rest) := by
  simp only [be2, List.cons_append, List.nil_append, readU16]
  congr 1
  congr 1
  omega

theorem readU32_be4 (n : Nat) (h : n < 4294967296) (rest : List Nat) :
    readU32 (be4 n ++ rest) = some (n, rest) := by
  simp only [be4, List.cons_append, List.nil_append, readU32]
  congr 1
  congr 1
  omega

theorem recvAll_exact (l rest : List Nat) (n : Nat) (h : l.length = n) :
    recvAll (l ++ rest) n = .ok (l, rest) := by
  subst h
  simp [recvAll, List.take_left, List.drop_left]

theorem unpackBody_wire (u i s : List Nat) (p t d r c : Nat)
    (hp : p < 65536) (ht : t < 4294967296) (hd : d < 4294967296)
    (hr : r < 4294967296) (hc : c < 4294967296) :
    unpackBody u.length i.length s.length
      (u ++ (i ++ (s ++ (be2 p ++ (be4 t ++ (be4 d ++ (be4 r ++ be4 c)))))))
      = some ⟨u, i, s, p, t, d, r, c⟩ := by
  have hc' : readU32 (be4 c) = some (c, []) := by
    simpa using readU32_be4 c hc []
  simp only [unpackBody, List.take_left, List.drop_left,
    readU16_be2 _ hp, readU32_be4 _ ht, readU32_be4 _ hd, readU32_be4 _ hr,
    hc']

/-- C2 (confirmed): for every valid `LogEntry` — text fields of UTF-8 byte
length below 2^16, port below 2^16, the three counters below 2^32, and any
binary32 score bit pattern — `send_log_entry` packs successfully and
`recv_log_entry` applied to the packed bytes (followed by any further
stream content) returns exactly the original record, leaving the rest of
the stream untouched. -/
theorem wire_roundtrip (e : WireLogEntry) (rest : List Nat)
    (hu : e.username.length < 65536) (hi : e.ip.length < 65536)
    (hs : e.server.length < 65536) (hp : e.port < 65536)
    (ha : e.accessTime < 4294967296) (hds : e.dataSent < 4294967296)
    (hdrx : e.dataReceived < 4294967296) (hsc : e.score < 4294967296) :
    sendLogEntry e = some (wireBytes e)
    ∧ recvLogEntry (wireBytes e ++ rest) = .ok (e, rest) := by
  obtain ⟨u, i, s, p, t, d, r, c⟩ := e
  simp only at hu hi hs hp ha hds hdrx hsc
  constructor
  · simp [sendLogEntry, hu, hi, hs, hp, ha, hds, hdrx]
  · have e1 : wireBytes ⟨u, i, s, p, t, d, r, c⟩ ++ rest
        = (be2 u.length ++ (be2 i.length ++ be2 s.length))
          ++ ((u ++ (i ++ (s ++ (be2 p ++ (be4 t ++ (be4 d ++ (be4 r ++ be4 c)))))))
              ++ rest) := by
      simp [wireBytes, List.append_assoc]
    have hlen6 : (be2 u.length ++ (be2 i.length ++ be2 s.length)).length = 6 := by
      simp [be2]
    have hlenBody :
        (u ++ (i ++ (s ++ (be2 p ++ (be4 t ++ (be4 d ++ (be4 r ++ be4 c))))))).length
          = u.length + i.length + s.length + 18 := by
      simp [be2, be4]
      omega
    have hs' : readU16 (be2 s.length) = some (s.length, []) := by
      simpa using readU16_be2 s.length hs []
    rw [recvLogEntry, e1]
    simp only [recvAll_exact _ _ 6 hlen6, readU16_be2 _ hu, readU16_be2 _ hi,
      hs', recvAll_exact _ _ _ hlenBody,
      unpackBody_wire u i s p t d r c hp ha hds hdrx hsc]

/-- Concrete wire record for the round-trip witness: the spec's §8 `Alice`
record — username `Alice`, IP `10.0.0.9`, server `srvA` (as UTF-8 bytes),
port 54362, accessTime 100, dataSent 100, dataReceived 0, and score 1.0
(binary32 bit pattern 0x3F800000). -/
def entryAliceWire : WireLogEntry :=
  ⟨[65, 108, 105, 99, 101],
   [49, 48, 46, 48, 46, 48, 46, 57],
   [115, 114, 118, 65],
   54362, 100, 100, 0, 1065353216⟩

/-- Witness for C2 at the concrete `Alice` record. -/
theorem wire_roundtrip_witness :
    sendLogEntry entryAliceWire = some (wireBytes entryAliceWire)
    ∧ recvLogEntry (wireBytes entryAliceWire ++ []) =
        .ok (entryAliceWire, []) :=
  wire_roundtrip entryAliceWire [] (by decide) (by decide) (by decide)
    (by decide) (by decide) (by decide) (by decide) (by decide)

/-!
## Claim C8 — partial-write resumption in the readiness-multiplexed servers
(`handle_new_connections_select` ServerPython.py:126-136,
`handle_new_connections_poll` ServerPython.py:182-192)

Both strategies keep a per-connection outbound queue of byte strings.  On a
write-ready event they pop the front message, call `s.send(next_msg)`, and
when the transport accepts fewer bytes than offered they push the unsent
remainder back at the *front* of the queue (`queue.appendleft`).  The two
code blocks are identical, so one step function embeds both. -/

/-- One write-ready event on a connection whose outbound queue is `q`, with
the transport accepting `sent` bytes of the offered message
(`0 ≤ sent ≤ len(next_msg)`): returns the bytes that went out and the new
queue.  An empty queue sends nothing (the source only drops the socket from
the write-interest set). -/
def writeStep (q : List (List Nat)) (sent : Nat) :
    List Nat × List (List Nat) :=
  match q with
  | [] => ([], [])
  | msg :: restq =>
    if sent < msg.length then (msg.take sent, msg.drop sent :: restq)
    else (msg, restq)

/-- A run of write-ready events with the given per-event transport
acceptance counts: concatenates everything sent, in order. -/
def writeRun (q : List (List Nat)) : List Nat → List Nat × List (List Nat)
  | [] => ([], q)
  | n :: ns =>
    let step := writeStep q n
    let run := writeRun step.2 ns
    (step.1 ++ run.1, run.2)

theorem writeStep_preserves (q : List (List Nat)) (sent : Nat) :
    (writeStep q sent).1 ++ (writeStep q sent).2.flatten = q.flatten := by
  cases q with
  | nil => rfl
  | cons msg restq =>
    by_cases h : sent < msg.length
    · simp only [writeStep, if_pos h, List.flatten_cons]
      rw [← List.append_assoc, List.take_append_drop]
    · simp [writeStep, h]

/-- C8 (confirmed): in the select and poll server strategies, whenever a
transport write accepts fewer bytes than offered, the unsent remainder is
placed back at the front of the connection's outbound queue
(first conjunct); consequently, over any run of write-ready events with any
per-event acceptance counts, the bytes sent so far followed by the bytes
still queued are exactly the originally queued byte stream — delivered in
order, nothing duplicated, nothing dropped (second conjunct). -/
theorem partial_write_requeue_preserves_stream
    (q : List (List Nat)) (accepts : List Nat) :
    (∀ (msg : List Nat) (restq : List (List Nat)) (sent : Nat),
        sent < msg.length →
        writeStep (msg :: restq) sent
          = (msg.take sent, msg.drop sent :: restq))
    ∧ (writeRun q accepts).1 ++ (writeRun q accepts).2.flatten = q.flatten := by
  constructor
  · intro msg restq sent h
    simp [writeStep, h]
  · induction accepts generalizing q with
    | nil => simp [writeRun]
    | cons n ns ih =>
      simp only [writeRun, List.append_assoc, ih (writeStep q n).2]
      exact writeStep_preserves q n

/-- Witness for C8 at a concrete two-chunk queue: offering `[1,2,3]` and
having the transport accept only 2 bytes re-queues `[3]` at the front,
ahead of the later message `[4,5]`. -/
theorem partial_write_requeue_preserves_stream_witness :
    writeStep [[1, 2, 3], [4, 5]] 2 = ([1, 2], [[3], [4, 5]]) :=
  (partial_write_requeue_preserves_stream [] []).1 [1, 2, 3] [[4, 5]] 2
    (by decide)

/-!
## Claim C7 — undo restores the immediately-previous frame
(`do_menu` choice 4, ClientPython.py:278-290)

The handler pops the top frame off `filterStack`, then (when frames remain)
pops the new top and pushes it straight back to read the restored view; an
emptied stack resets the view to `([], '')`. -/

/-- One query-history frame: `(curResults, curFilterString)`. -/
abbrev Frame := List PyRec × PyStr

/-- The undo branch of `do_menu` (ClientPython.py:278-290), acting on the
stack and the current view.  (The parallel mirror-file update
`remove_last_query_action` is modelled with claim C6.) -/
def undoStep (st : List Frame) (cur : Frame) : List Frame × Frame :=
  match stackPop? st with
  | none => (st, cur)
  | some (_, st1) =>
    match stackPop? st1 with
    | some (top, rest) => (stackPush rest top, top)
    | none => (st1, ([], []))

/-- C7 (confirmed): one undo on a non-empty stack removes exactly the most
recent frame and sets the view to the frame immediately below it (never a
two-steps-back frame); undoing the sole remaining frame empties the stack
and resets the view.  With `frames = []`, `below = (r1, "score>4")` and
`top = (r2, "score<9.5")` this is the spec's §8 scenario: one pop restores
the `"score>4"` view. -/
theorem undo_restores_prior_frame (frames : List Frame)
    (below top cur : Frame) :
    undoStep (frames ++ [below, top]) cur = (frames ++ [below], below)
    ∧ undoStep [top] cur = ([], ([], []))
    ∧ undoStep [] cur = ([], cur) := by
  refine ⟨?_, rfl, rfl⟩
  have h1 : stackPop? (frames ++ [below, top]) = some (top, frames ++ [below]) := by
    simp [stackPop?]
  have h2 : stackPop? (frames ++ [below]) = some (below, frames) := by
    simp [stackPop?]
  simp [undoStep, h1, h2, stackPush]

/-!
## Claim C9 — command frames are never emitted
(`upload_logs` ClientPython.py:169-179, `submit_query` ClientPython.py:227-231)

Both functions begin with `sock.sendall(sock.htons(...))`.  `htons` is a
module-level function of the `socket` module; CPython socket *objects* have
no such attribute, so the very first expression raises `AttributeError`
before any byte reaches the transport.  (Even with the module-level
function, `htons` returns `int` and `sendall` requires a bytes-like object,
so a `TypeError` would follow; either way nothing is sent.)  The comments
in the source — "send a 2-byte integer with the command" — show the claim's
framing was the intent; the code simply never performs it. -/

/-- Method and attribute names exposed by CPython `socket.socket` objects
(the byte-conversion helpers `htons`/`htonl`/`ntohs`/`ntohl` live on the
`socket` module, not on socket objects). -/
def socketObjectAttrs : List String :=
  ["accept", "bind", "close", "connect", "connect_ex", "detach", "dup",
   "family", "fileno", "get_inheritable", "getblocking", "getpeername",
   "getsockname", "getsockopt", "gettimeout", "ioctl", "listen", "makefile",
   "proto", "recv", "recv_into", "recvfrom", "recvfrom_into", "recvmsg",
   "recvmsg_into", "send", "sendall", "sendfile", "sendmsg", "sendto",
   "set_inheritable", "setblocking", "setsockopt", "settimeout", "share",
   "shutdown", "timeout", "type"]

/-- Python attribute lookup on a socket object. -/
def socketHasAttr (name : String) : Bool := socketObjectAttrs.contains name

/-- `upload_logs` (ClientPython.py:169-179): the list of byte chunks handed
to the transport, paired with the exception (if any) that ends the call.
The first statement `sock.sendall(sock.htons(UPLOAD_CMD))` fails during the
`sock.htons` attribute lookup, so the sent trace is empty; were the lookup
to succeed it would return an `int`, which `sendall` rejects, so nothing
would be sent either way. -/
def uploadLogs (logs : List WireLogEntry) : List (List Nat) × Option String :=
  if socketHasAttr "htons" then
    ([], some "TypeError: a bytes-like object is required, not 'int'")
  else
    ([], some "AttributeError: 'socket' object has no attribute 'htons'")

/-- `submit_query` (ClientPython.py:227-231): identical first statement
`sock.sendall(sock.htons(QUERY_CMD))`, identical failure. -/
def submitQuery (query : PyStr) : List (List Nat) × Option String :=
  if socketHasAttr "htons" then
    ([], some "TypeError: a bytes-like object is required, not 'int'")
  else
    ([], some "AttributeError: 'socket' object has no attribute 'htons'")

/-- C9 (code bug): for every upload and every query submission, *no* wire
frame is emitted at all: socket objects lack the `htons` attribute the code
calls, so both functions die on their first statement with an
`AttributeError` and the transport trace stays empty — the claimed
2-byte big-endian command codes 0x0001/0x0002 never reach the wire. -/
theorem upload_query_frames_never_sent (logs : List WireLogEntry)
    (query : PyStr) :
    socketHasAttr "htons" = false
    ∧ uploadLogs logs
        = ([], some "AttributeError: 'socket' object has no attribute 'htons'")
    ∧ submitQuery query
        = ([], some "AttributeError: 'socket' object has no attribute 'htons'")
    ∧ socketHasAttr "sendall" = true := by
  have h : socketHasAttr "htons" = false := by decide
  exact ⟨h, by simp [uploadLogs, h], by simp [submitQuery, h], by decide⟩

/-!
## Claim C6 — query-history mirror file
(`save_last_query_action` ClientPython.py:58-80,
`remove_last_query_action` ClientPython.py:82-99)

The mirror file is modelled at character level (`PyStr`).  Its first line is
`f'Total filters: {num:<16}\n'` — always exactly 32 characters while the
count stays within 16 digits — so `seek(0); write(...)` replaces exactly
that line in place. -/

/-- Decimal digit character for `d % 10`-style values. -/
def decDigit (d : Nat) : Char :=
  match d with
  | 0 => '0' | 1 => '1' | 2 => '2' | 3 => '3' | 4 => '4'
  | 5 => '5' | 6 => '6' | 7 => '7' | 8 => '8' | _ => '9'

/-- Decimal rendering of a natural number (Python `str(n)` for `n ≥ 0`). -/
def natToDec (n : Nat) : PyStr :=
  if h : n < 10 then [decDigit n]
  else natToDec (n / 10) ++ [decDigit (n % 10)]
termination_by n
decreasing_by exact Nat.div_lt_self (by omega) (by omega)

/-- Python `str(i)` for an `int`. -/
def intToDec (i : Int) : PyStr :=
  if i < 0 then '-' :: natToDec (-i).toNat else natToDec i.toNat

/-- Python `f'{s:<w}'`: left-justify, padding with spaces on the right. -/
def ljust (s : PyStr) (w : Nat) : PyStr :=
  s ++ List.replicate (w - s.length) ' '

/-- The counter line `f'Total filters: {num:<16}\n'`. -/
def counterLine (num : Int) : PyStr :=
  "Total filters: ".data ++ ljust (intToDec num) 16 ++ ['\n']

/-- Python `file.readline()`: characters up to and including the first
newline (or the whole remainder if none). -/
def readLine : PyStr → PyStr
  | [] => []
  | c :: rest => if c = '\n' then ['\n'] else c :: readLine rest

/-- Python `file.readlines()`: all lines, each keeping its trailing
newline; an empty file gives `[]`. -/
def readLines : PyStr → List PyStr
  | [] => []
  | c :: rest =>
    if c = '\n' then ['\n'] :: readLines rest
    else
      match readLines rest with
      | [] => [[c]]
      | l :: ls => (c :: l) :: ls

/-- `save_last_query_action(query)` (ClientPython.py:58-80) acting on the
mirror-file contents: read the first line, parse the count after
`'Total filters: '` (`ValueError` → 0), add one, overwrite the file head in
place with the new counter line (`seek(0); write`), then append
`query + '\n'` at the end. -/
def querySave (query : PyStr) (f : PyStr) : PyStr :=
  let first := readLine f
  let num : Int := ((pyInt? (pyStrip (first.drop 15))).getD 0) + 1
  let cl := counterLine num
  (cl ++ f.drop cl.length) ++ (query ++ ['\n'])

/-- `remove_last_query_action()` (ClientPython.py:82-99): read all lines,
parse the counter (`ValueError` → 0), raise when no query is recorded,
otherwise rewrite the file as the decremented counter line followed by
`lines[1:-1]` and truncate. -/
def queryRemove (f : PyStr) : Except PyStr PyStr :=
  match readLines f with
  | [] => .error "IndexError: list index out of range".data
  | l0 :: rest =>
    let num : Int := (pyInt? (pyStrip (l0.drop 15))).getD 0
    if num < 1 then .error "No queries to remove".data
    else .ok (counterLine (num - 1) ++ (rest.dropLast).flatten)

/-- The well-formed mirror-file image of a stack of filter strings (oldest
first): counter line holding the depth, then one line per filter. -/
def encodeFile (qs : List PyStr) : PyStr :=
  counterLine (qs.length : Int) ++ (qs.map (fun q => q ++ ['\n'])).flatten

/-- The count stored in the file's first counter line, as the source parses
it. -/
def fileCounter (f : PyStr) : Int :=
  (pyInt? (pyStrip ((readLine f).drop 15))).getD 0

/-- The filter-string lines after the counter line, trailing newlines
stripped, oldest first. -/
def fileQueryLines (f : PyStr) : List PyStr :=
  (readLines f).tail.map
    (fun l => if l.getLast? = some '\n' then l.dropLast else l)

theorem digitVal_decDigit {d : Nat} (h : d < 10) :
    digitVal (decDigit d) = d := by
  interval_cases d <;> decide

theorem isDigit_decDigit {d : Nat} : (decDigit d).isDigit = true := by
  rcases d with _ | _ | _ | _ | _ | _ | _ | _ | _ | d <;> simp [decDigit]

theorem natToDec_ne_nil (n : Nat) : natToDec n ≠ [] := by
  rw [natToDec]
  by_cases h : n < 10 <;> simp [h]

theorem natToDec_all_digits (n : Nat) :
    (natToDec n).all Char.isDigit = true := by
  induction n using Nat.strong_induction_on with
  | _ n ih =>
    rw [natToDec]
    by_cases h : n < 10
    · simp [h, isDigit_decDigit]
    · have hlt : n / 10 < n := Nat.div_lt_self (by omega) (by omega)
      simp [h, ih _ hlt, isDigit_decDigit]

theorem digitsVal_append_digit (s : PyStr) (c : Char) :
    digitsVal (s ++ [c]) = digitsVal s * 10 + digitVal c := by
  simp [digitsVal, List.foldl_append]

theorem digitsVal_natToDec (n : Nat) : digitsVal (natToDec n) = n := by
  induction n using Nat.strong_induction_on with
  | _ n ih =>
    rw [natToDec]
    by_cases h : n < 10
    · simp [h, digitsVal, digitVal_decDigit h]
    · have hlt : n / 10 < n := Nat.div_lt_self (by omega) (by omega)
      have hm : n % 10 < 10 := Nat.mod_lt _ (by omega)
      simp [h, digitsVal_append_digit, ih _ hlt, digitVal_decDigit hm]
      omega

theorem pyInt?_digits {s : PyStr} (hne : s ≠ [])
    (hd : s.all Char.isDigit = true) :
    pyInt? s = some ((digitsVal s : Int)) := by
  unfold pyInt?
  split
  · rw [List.all_cons, show Char.isDigit '-' = false from by decide] at hd
    simp at hd
  · rw [List.all_cons, show Char.isDigit '+' = false from by decide] at hd
    simp at hd
  · simp [hne, hd]

theorem isDigit_not_space {c : Char} (h : c.isDigit = true) :
    pyIsSpace c = false := by
  by_contra hc
  have hc' : pyIsSpace c = true := by
    cases hx : pyIsSpace c
    · exact absurd hx hc
    · rfl
  simp only [pyIsSpace, Bool.or_eq_true, decide_eq_true_eq] at hc'
  rcases hc' with ((((rfl | rfl) | rfl) | rfl) | rfl) | rfl <;>
    exact absurd h (by decide)

theorem dropWhile_space_append {l1 : PyStr}
    (h : ∀ c ∈ l1, pyIsSpace c = true) (l2 : PyStr) :
    (l1 ++ l2).dropWhile pyIsSpace = l2.dropWhile pyIsSpace := by
  induction l1 with
  | nil => rfl
  | cons c cs ih =>
    have hc : pyIsSpace c = true := h c (by simp)
    simp only [List.cons_append, List.dropWhile_cons, hc, if_true]
    exact ih (fun x hx => h x (by simp [hx]))

theorem dropWhile_space_digits {l : PyStr} (h : l.all Char.isDigit = true) :
    l.dropWhile pyIsSpace = l := by
  cases l with
  | nil => rfl
  | cons c cs =>
    simp only [List.all_cons, Bool.and_eq_true] at h
    simp [List.dropWhile_cons, isDigit_not_space h.1]


theorem pyStrip_digits_pad (dec : PyStr) (k : Nat) (hne : dec ≠ [])
    (hd : dec.all Char.isDigit = true) :
    pyStrip (dec ++ (List.replicate k ' ' ++ ['\n'])) = dec := by
  unfold pyStrip
  have h1 : (dec ++ (List.replicate k ' ' ++ ['\n'])).dropWhile pyIsSpace
      = dec ++ (List.replicate k ' ' ++ ['\n']) := by
    cases dec with
    | nil => exact absurd rfl hne
    | cons c cs =>
      simp only [List.all_cons, Bool.and_eq_true] at hd
      simp [List.dropWhile_cons, isDigit_not_space hd.1]
  rw [h1]
  have h2 : (dec ++ (List.replicate k ' ' ++ ['\n'])).reverse
      = ('\n' :: List.replicate k ' ') ++ dec.reverse := by
    simp [List.reverse_append, List.reverse_replicate]
  rw [h2]
  have h3 : ∀ c ∈ ('\n' :: List.replicate k ' '), pyIsSpace c = true := by
    intro c hc
    rcases List.mem_cons.mp hc with rfl | hmem
    · decide
    · rw [List.eq_of_mem_replicate hmem]; decide
  rw [dropWhile_space_append h3, dropWhile_space_digits (by simpa using hd)]
  exact List.reverse_reverse dec

theorem readLine_append {l : PyStr} (h : '\n' ∉ l) (rest : PyStr) :
    readLine ((l ++ ['\n']) ++ rest) = l ++ ['\n'] := by
  induction l with
  | nil => rfl
  | cons c cs ih =>
    have hc : ¬ (c = '\n') := fun hx => h (by simp [hx])
    simp only [List.cons_append, List.append_eq, readLine, if_neg hc]
    rw [ih (fun hx => h (by simp [hx]))]

theorem readLines_line {x : PyStr} (h : '\n' ∉ x) (rest : PyStr) :
    readLines ((x ++ ['\n']) ++ rest) = (x ++ ['\n']) :: readLines rest := by
  induction x with
  | nil => rfl
  | cons c cs ih =>
    have hc : ¬ (c = '\n') := fun hx => h (by simp [hx])
    simp only [List.cons_append, List.append_eq, readLines, if_neg hc]
    rw [ih (fun hx => h (by simp [hx]))]

theorem readLines_flatten (lines : List PyStr)
    (h : ∀ x ∈ lines, '\n' ∉ x) :
    readLines ((lines.map (fun q => q ++ ['\n'])).flatten)
      = lines.map (fun q => q ++ ['\n']) := by
  induction lines with
  | nil => rfl
  | cons q qs ih =>
    simp only [List.map_cons, List.flatten_cons]
    rw [readLines_line (h q (by simp)), ih (fun x hx => h x (by simp [hx]))]

theorem counterLine_eq (n : Nat) :
    counterLine (n : Int)
      = ("Total filters: ".data
          ++ (natToDec n
              ++ (List.replicate (16 - (natToDec n).length) ' ' ++ ['\n']))) := by
  have hn : ¬ ((n : Int) < 0) := by omega
  simp [counterLine, intToDec, ljust, hn]

theorem counterLine_no_newline_body (n : Nat) :
    counterLine (n : Int)
      = (("Total filters: ".data
          ++ (natToDec n ++ List.replicate (16 - (natToDec n).length) ' '))
            ++ ['\n'])
    ∧ '\n' ∉ ("Total filters: ".data
          ++ (natToDec n ++ List.replicate (16 - (natToDec n).length) ' ')) := by
  constructor
  · rw [counterLine_eq]
    simp
  · intro hmem
    rcases List.mem_append.mp hmem with hlit | hrest
    · revert hlit
      decide
    · rcases List.mem_append.mp hrest with hdec | hpad
      · have := List.all_eq_true.mp (natToDec_all_digits n) _ hdec
        exact absurd this (by decide)
      · exact absurd (List.eq_of_mem_replicate hpad) (by decide)

theorem counterLine_length (n : Nat) (h : (natToDec n).length ≤ 16) :
    (counterLine (n : Int)).length = 32 := by
  rw [counterLine_eq]
  simp
  omega

theorem counter_parse (n : Nat) :
    pyInt? (pyStrip ((counterLine (n : Int)).drop 15)) = some (n : Int) := by
  rw [counterLine_eq]
  have h15 : (15 : Nat) = ("Total filters: ".data).length := by decide
  rw [h15, List.drop_left]
  rw [pyStrip_digits_pad _ _ (natToDec_ne_nil n) (natToDec_all_digits n)]
  rw [pyInt?_digits (natToDec_ne_nil n) (natToDec_all_digits n),
    digitsVal_natToDec]

theorem readLine_encodeFile (qs : List PyStr) :
    readLine (encodeFile qs) = counterLine (qs.length : Int) := by
  obtain ⟨hcl, hnl⟩ := counterLine_no_newline_body qs.length
  rw [encodeFile, hcl, readLine_append hnl, ← hcl]

theorem readLines_encodeFile (qs : List PyStr) (h : ∀ x ∈ qs, '\n' ∉ x) :
    readLines (encodeFile qs)
      = counterLine (qs.length : Int) :: qs.map (fun q => q ++ ['\n']) := by
  obtain ⟨hcl, hnl⟩ := counterLine_no_newline_body qs.length
  rw [encodeFile, hcl, readLines_line hnl, readLines_flatten qs h, ← hcl]

/-- C6 (confirmed): starting from a well-formed mirror file for the stack
`qs` (or from the freshly created empty file), a completed push
(`save_last_query_action`) produces the well-formed file for `qs ++ [q]`,
and a completed pop (`remove_last_query_action`) takes it back to the file
for `qs`; in every well-formed file the counter line holds exactly the
stack depth and the lines after it are exactly the stacked filter strings,
oldest first.  Side conditions: filter strings contain no newline (`input()`
strips it) and the depth stays below 10^16 so the counter line keeps its
fixed 32-character width. -/
theorem history_mirror_invariant (qs : List PyStr) (q : PyStr)
    (hq : '\n' ∉ q) (hqs : ∀ x ∈ qs, '\n' ∉ x)
    (hlen1 : (natToDec qs.length).length ≤ 16)
    (hlen2 : (natToDec (qs.length + 1)).length ≤ 16) :
    querySave q (encodeFile qs) = encodeFile (qs ++ [q])
    ∧ queryRemove (encodeFile (qs ++ [q])) = .ok (encodeFile qs)
    ∧ fileCounter (encodeFile (qs ++ [q])) = ((qs.length + 1 : Nat) : Int)
    ∧ fileQueryLines (encodeFile (qs ++ [q])) = qs ++ [q]
    ∧ querySave q [] = encodeFile [q] := by
  have hqs' : ∀ x ∈ qs ++ [q], '\n' ∉ x := by
    intro x hx
    rcases List.mem_append.mp hx with h1 | h1
    · exact hqs x h1
    · rw [List.mem_singleton.mp h1]; exact hq
  have hcast : ((qs.length : Int) + 1) = ((qs.length + 1 : Nat) : Int) := by
    push_cast; ring
  have hlines : readLines (encodeFile (qs ++ [q]))
      = counterLine ((qs.length + 1 : Nat) : Int)
        :: (qs ++ [q]).map (fun x => x ++ ['\n']) := by
    rw [readLines_encodeFile (qs ++ [q]) hqs']
    simp
  refine ⟨?_, ?_, ?_, ?_, ?_⟩
  · -- push transition
    simp only [querySave]
    rw [readLine_encodeFile, counter_parse]
    simp only [Option.getD_some]
    rw [hcast, counterLine_length _ hlen2]
    conv_lhs => rw [encodeFile]
    rw [show (32 : Nat) = (counterLine (qs.length : Int)).length from
      (counterLine_length _ hlen1).symm, List.drop_left]
    rw [encodeFile]
    simp [List.map_append, List.flatten_append, List.append_assoc]
  · -- pop transition
    simp only [queryRemove]
    rw [hlines]
    simp only [counter_parse (qs.length + 1), Option.getD_some]
    rw [if_neg (by push_cast; omega)]
    have h1 : ((qs.length + 1 : Nat) : Int) - 1 = (qs.length : Int) := by
      push_cast; ring
    rw [h1]
    simp [encodeFile, List.map_append]
  · -- counter line equals stack depth
    rw [fileCounter, readLine_encodeFile]
    simp only [List.length_append, List.length_singleton]
    rw [counter_parse (qs.length + 1)]
    simp
  · -- file lines equal the stacked filter strings, oldest first
    rw [fileQueryLines, hlines]
    simp only [List.tail_cons, List.map_map]
    have hfun : ∀ x ∈ qs ++ [q],
        ((fun l => if List.getLast? l = some '\n' then List.dropLast l else l)
            ∘ fun x => x ++ ['\n']) x = id x := by
      intro x _
      simp [Function.comp]
    rw [List.map_congr_left hfun, List.map_id]
  · -- the very first push acts on the freshly created empty file
    simp only [querySave]
    have h0 : ((pyInt? (pyStrip ((readLine ([] : PyStr)).drop 15))).getD 0) + 1
        = ((1 : Nat) : Int) := by decide
    rw [h0]
    simp [encodeFile]

/-- Witness for C6 at the spec's §8 scenario filters: push `"score>4"`,
push `"score<9.5"`, pop. -/
theorem history_mirror_invariant_witness :
    querySave "score<9.5".data (encodeFile ["score>4".data])
        = encodeFile (["score>4".data] ++ ["score<9.5".data])
    ∧ queryRemove (encodeFile (["score>4".data] ++ ["score<9.5".data]))
        = .ok (encodeFile ["score>4".data])
    ∧ fileCounter (encodeFile (["score>4".data] ++ ["score<9.5".data]))
        = ((1 + 1 : Nat) : Int)
    ∧ fileQueryLines (encodeFile (["score>4".data] ++ ["score<9.5".data]))
        = ["score>4".data] ++ ["score<9.5".data]
    ∧ querySave "score<9.5".data [] = encodeFile ["score<9.5".data] :=
  history_mirror_invariant ["score>4".data] "score<9.5".data
    (by decide) (by decide) (by simp [natToDec]) (by simp [natToDec])
